import Mathlib

/-!
Verification development for the frp fork: server-side Control session
(work-connection pool, proxy registration, ControlManager), the client
reconnection supervisor, and the MAC-based unique-id derivation.

Machine integers are modelled as Nat with explicit reduction modulo 2^32
where the source relies on 32-bit wraparound (SHA-1); Go channels are
modelled as a buffer list plus a closed flag; Go panics and nil
dereferences surface as Option.none.
-/

/-! ### SHA-1 over byte lists (Nat valued), as used by crypto/sha1 -/

/-- Reduce modulo 2^32: the word size of the SHA-1 state. -/
def w32 (n : Nat) : Nat := n % 4294967296

/-- Rotate a 32-bit word left by k bits (argument assumed < 2^32). -/
def rotl (k n : Nat) : Nat := (n * 2 ^ k) % 4294967296 + n / 2 ^ (32 - k)

/-- SHA-1 round function: choice, parity, majority, parity, by round index. -/
def sha1F (i b c d : Nat) : Nat :=
  if i < 20 then (b &&& c) ||| ((b ^^^ 4294967295) &&& d)
  else if i < 40 then b ^^^ c ^^^ d
  else if i < 60 then (b &&& c) ||| (b &&& d) ||| (c &&& d)
  else b ^^^ c ^^^ d

/-- SHA-1 round constant by round index. -/
def sha1K (i : Nat) : Nat :=
  if i < 20 then 1518500249
  else if i < 40 then 1859775393
  else if i < 60 then 2400959708
  else 3395469782

/-- Big-endian 32-bit words from a byte list (groups of four). -/
def toWords : List Nat → List Nat
  | b0 :: b1 :: b2 :: b3 :: rest => (((b0 * 256 + b1) * 256 + b2) * 256 + b3) :: toWords rest
  | _ => []

/-- Big-endian 8-byte encoding of a natural number (the length field). -/
def beBytes8 (n : Nat) : List Nat :=
  [n / 2 ^ 56 % 256, n / 2 ^ 48 % 256, n / 2 ^ 40 % 256, n / 2 ^ 32 % 256,
   n / 2 ^ 24 % 256, n / 2 ^ 16 % 256, n / 2 ^ 8 % 256, n % 256]

/-- SHA-1 padding: append 0x80, zero bytes to 56 mod 64, then the bit length. -/
def sha1Pad (msg : List Nat) : List Nat :=
  msg ++ 128 :: List.replicate ((119 - msg.length % 64) % 64) 0 ++ beBytes8 (8 * msg.length)

/-- Message-schedule extension, on a reversed word accumulator. -/
def sha1ExtendRev (acc : List Nat) : Nat → List Nat
  | 0 => acc
  | n + 1 =>
    let wNew := rotl 1 ((acc.getD 2 0) ^^^ (acc.getD 7 0) ^^^ (acc.getD 13 0) ^^^ (acc.getD 15 0))
    sha1ExtendRev (wNew :: acc) n

/-- The 80-word message schedule of one 16-word chunk. -/
def sha1Schedule (chunk : List Nat) : List Nat :=
  (sha1ExtendRev chunk.reverse 64).reverse

/-- One SHA-1 round on the five-word working state. -/
def sha1Round (i : Nat) (st : Nat × Nat × Nat × Nat × Nat) (w : Nat) :
    Nat × Nat × Nat × Nat × Nat :=
  match st with
  | (a, b, c, d, e) =>
    (w32 (rotl 5 a + sha1F i b c d + e + sha1K i + w), a, rotl 30 b, c, d)

/-- Fold the 80 rounds over the schedule words. -/
def sha1Rounds (i : Nat) (st : Nat × Nat × Nat × Nat × Nat) :
    List Nat → Nat × Nat × Nat × Nat × Nat
  | [] => st
  | w :: ws => sha1Rounds (i + 1) (sha1Round i st w) ws

/-- Add the working state back into the hash state, modulo 2^32. -/
def sha1Combine (h st : Nat × Nat × Nat × Nat × Nat) : Nat × Nat × Nat × Nat × Nat :=
  match h, st with
  | (h0, h1, h2, h3, h4), (a, b, c, d, e) =>
    (w32 (h0 + a), w32 (h1 + b), w32 (h2 + c), w32 (h3 + d), w32 (h4 + e))

/-- Split a word list into 16-word chunks (fueled by the list length). -/
def chunk16 (l : List Nat) (fuel : Nat) : List (List Nat) :=
  match fuel with
  | 0 => []
  | f + 1 => if l = [] then [] else l.take 16 :: chunk16 (l.drop 16) f

/-- Fold the compression function over every chunk. -/
def sha1Chunks (h : Nat × Nat × Nat × Nat × Nat) :
    List (List Nat) → Nat × Nat × Nat × Nat × Nat
  | [] => h
  | ch :: rest => sha1Chunks (sha1Combine h (sha1Rounds 0 h (sha1Schedule ch))) rest

/-- The five 32-bit words of the SHA-1 digest of a byte list. -/
def sha1Words (msg : List Nat) : Nat × Nat × Nat × Nat × Nat :=
  let ws := toWords (sha1Pad msg)
  sha1Chunks (1732584193, 4023233417, 2562383102, 271733878, 3285377520) (chunk16 ws ws.length)

/-- Big-endian bytes of one 32-bit word. -/
def wordBytes (h : Nat) : List Nat :=
  [h / 2 ^ 24 % 256, h / 2 ^ 16 % 256, h / 2 ^ 8 % 256, h % 256]

/-- The 20-byte SHA-1 digest of a byte list. -/
def sha1Bytes (msg : List Nat) : List Nat :=
  match sha1Words msg with
  | (h0, h1, h2, h3, h4) =>
    wordBytes h0 ++ wordBytes h1 ++ wordBytes h2 ++ wordBytes h3 ++ wordBytes h4

/-- Lowercase hexadecimal digit of n mod 16: one of the sixteen characters
0 to 9 (codepoint 48 up) and a to f (codepoint 97 up). -/
def hexChar (n : Nat) : Char :=
  if n % 16 < 10 then Char.ofNat (48 + n % 16) else Char.ofNat (87 + n % 16)

/-- Two lowercase hexadecimal characters of one byte, as printed by a %x verb. -/
def byteHexChars (b : Nat) : List Char := [hexChar (b / 16), hexChar b]

/-- Lowercase hexadecimal rendering of the SHA-1 digest of a string
(Go: fmt.Sprintf with the %x verb on the sha1 sum). -/
def sha1Hex (s : String) : String :=
  ⟨((sha1Bytes (s.data.map Char.toNat)).map byteHexChars).flatten⟩

/-! ### Unique-id derivation (client getHashResult, util GetUniqueId hash core)

The source computes, over the collected hardware-address strings: strip the
colon separators, parse with hexToBigInt (which slices off the first two
characters before parsing base 16), build a shopspring decimal with exponent
one (numeric value ten times the parsed integer), take the numerically
smallest with sortDecimalArray (which indexes element zero unguarded), render
it in base ten, SHA-1 that string, and keep the characters from index 20 of
the 40-character hex digest.

A decimal with exponent one is modelled by the Nat holding its numeric value
(ten times the big integer): this preserves both the LessThan order and the
String rendering used by the source. Option.none models a Go panic: the
out-of-range slice in hexToBigInt, the nil big.Int that SetString leaves on a
parse failure (dereferenced by decimal.NewFromBigInt), and the index out of
range on an empty slice in sortDecimalArray. -/

/-- Value of one hexadecimal digit character, upper or lower case. -/
def hexDigitVal? (c : Char) : Option Nat :=
  if '0' ≤ c ∧ c ≤ '9' then some (c.toNat - '0'.toNat)
  else if 'a' ≤ c ∧ c ≤ 'f' then some (c.toNat - 'a'.toNat + 10)
  else if 'A' ≤ c ∧ c ≤ 'F' then some (c.toNat - 'A'.toNat + 10)
  else none

/-- Base-16 parse of a character list, as big.Int SetString with base 16:
fails on an empty string or on any non-hexadecimal character. -/
def hexVal? : List Char → Option Nat
  | [] => none
  | l => hexValCore l 0
where
  hexValCore : List Char → Nat → Option Nat
  | [], acc => some acc
  | c :: rest, acc =>
    match hexDigitVal? c with
    | none => none
    | some d => hexValCore rest (16 * acc + d)

/-- strings.Replace(addr, colon, empty, -1): remove every colon. -/
def stripColons (s : String) : String := ⟨s.data.filter (fun c => c ≠ ':')⟩

/-- hexToBigInt: parse hex[2:] base 16. none models the slice panic when the
string is shorter than two characters and the nil result on parse failure
(both end in a panic at the decimal.NewFromBigInt call site). -/
def hexToBigInt (hex : String) : Option Nat := hexVal? (hex.data.drop 2)

/-- decimal.NewFromBigInt(n, 1): a decimal of numeric value ten times n,
modelled by that value. -/
def decimalNewFromBigInt1 (n : Nat) : Nat := 10 * n

/-- Decimal.String on an exponent-one decimal: base-ten rendering of its
numeric value. -/
def decimalString (d : Nat) : String := Nat.repr d

/-- sortDecimalArray: take element zero (an empty slice panics, modelled by
none), then fold the whole array keeping the LessThan-smaller element. -/
def sortDecimalArray (l : List Nat) : Option Nat :=
  match l with
  | [] => none
  | m :: _ => some (l.foldl (fun mn item => if item < mn then item else mn) m)

/-- Go loop building the decimal array: skip empty addresses, strip colons,
parse, scale; none at the first address whose parse panics. -/
def mapOption (f : α → Option β) : List α → Option (List β)
  | [] => some []
  | a :: l =>
    match f a with
    | none => none
    | some b => (mapOption f l).map (fun bs => b :: bs)

/-- getHashResult, as a function of the enumerated hardware-address strings:
skip empty addresses, strip colons and parse each with hexToBigInt into an
exponent-one decimal, take the smallest with sortDecimalArray, SHA-1 its
base-ten rendering, return the hex digest characters from index 20. -/
def getHashResult (addrs : List String) : Option String :=
  let macs := addrs.filter (fun a => a ≠ "")
  match mapOption (fun a => (hexToBigInt (stripColons a)).map decimalNewFromBigInt1) macs with
  | none => none
  | some decs =>
    match sortDecimalArray decs with
    | none => none
    | some m => some ⟨(sha1Hex (decimalString m)).data.drop 20⟩

/-- The unique-id computation as claim C7 words it: strip the separator
characters from each address, parse each full result as a hexadecimal big
integer, select the numerically smallest, SHA-1 the decimal string
representation of that integer, return the last 20 hexadecimal characters of
the digest. -/
def claimC7UniqueId (addrs : List String) : Option String :=
  let macs := addrs.filter (fun a => a ≠ "")
  match mapOption (fun a => hexVal? (stripColons a).data) macs with
  | none => none
  | some vals =>
    match vals.min? with
    | none => none
    | some m => some ⟨(sha1Hex (Nat.repr m)).data.drop 20⟩

/-- The amended C7 computation: strip the separator characters from each
address, parse the substring after the first two characters as a hexadecimal
big integer, scale each by ten (the exponent-one decimal), select the
numerically smallest, SHA-1 its base-ten string, return the last 20
hexadecimal characters of the digest. -/
def amendedC7UniqueId (addrs : List String) : Option String :=
  let macs := addrs.filter (fun a => a ≠ "")
  match mapOption (fun a => (hexVal? ((stripColons a).data.drop 2)).map (fun n => 10 * n)) macs with
  | none => none
  | some vals =>
    match vals.min? with
    | none => none
    | some m => some ⟨(sha1Hex (Nat.repr m)).data.drop 20⟩

/-- A lowercase hexadecimal digit character. -/
def isLowerHexChar (c : Char) : Bool :=
  ('0' ≤ c && c ≤ '9') || ('a' ≤ c && c ≤ 'f')

/-- Shape of a hardware-address string as the Go net package prints one:
after removing the colons, more than two characters remain and every
remaining character is a hexadecimal digit. -/
def validMac (a : String) : Bool :=
  decide (2 < (stripColons a).data.length)
    && (stripColons a).data.all (fun c => (hexDigitVal? c).isSome)


/-! ### Server-side Control: work-connection pool

The workConnCh channel is modelled as a bounded buffer (a list, front =
next value received) plus a closed flag. A receive from a closed channel
with a non-empty buffer still yields a value with ok true; on an empty
closed buffer it yields ok false at once. Work connections themselves are
opaque and identified by a Nat. -/

/-- State of the workConnCh channel of one Control. -/
structure WorkConnCh where
  buf : List Nat
  isClosed : Bool

/-- What the blocking select inside GetWorkConn observes while waiting on
workConnCh: a delivered connection, channel close, or expiry of the
UserConnTimeout timer. -/
inductive WaitEvent where
  | recv (c : Nat)
  | chClosed
  | timeout

/-- Result of GetWorkConn: a connection, frpErr.ErrCtlClosed, the timeout
error, or the error PanicToError returns when the synchronous ReqWorkConn
enqueue hits a closed sendCh. -/
inductive GWCResult where
  | conn (c : Nat)
  | ctlClosed
  | timeoutErr
  | sendFailed
deriving DecidableEq

/-- Control.GetWorkConn. Inputs: the workConnCh state, whether sendCh is
already closed (a send on it panics, caught by PanicToError), and the event
the blocking wait would observe. Output: the result paired with the number
of ReqWorkConn messages enqueued on sendCh during the call. The replenishing
enqueue after a successful receive discards its PanicToError error, so a
closed sendCh only loses the replenishment there. -/
def GetWorkConn (st : WorkConnCh) (sendChClosed : Bool) (ev : WaitEvent) : GWCResult × Nat :=
  match st.buf with
  | c :: _ =>
    -- non-blocking receive hit: replenish (best effort) and return the conn
    (GWCResult.conn c, if sendChClosed then 0 else 1)
  | [] =>
    if st.isClosed then
      -- receive on a closed empty channel is immediately ready with ok false
      (GWCResult.ctlClosed, 0)
    else
      -- default branch: synchronously enqueue one ReqWorkConn, then wait
      if sendChClosed then (GWCResult.sendFailed, 0)
      else
        match ev with
        | WaitEvent.recv c => (GWCResult.conn c, 2)
        | WaitEvent.chClosed => (GWCResult.ctlClosed, 1)
        | WaitEvent.timeout => (GWCResult.timeoutErr, 1)

/-- NewControl: the login PoolCount clamped from above by MaxPoolCount. -/
def NewControlPoolCount (loginPoolCount maxPoolCount : Nat) : Nat :=
  if loginPoolCount > maxPoolCount then maxPoolCount else loginPoolCount

/-- Capacity of workConnCh as allocated by NewControl. -/
def workConnChCap (poolCount : Nat) : Nat := poolCount + 10

/-- The error string RegisterWorkConn returns when the pool is full. -/
def poolFullErr : String := "work connection pool is full, discarding"

/-- Control.RegisterWorkConn: non-blocking send on workConnCh. The send
succeeds exactly when the buffer is below capacity; otherwise the default
branch returns the pool-full error and the buffer is untouched. Returns the
Go error (none is nil) and the resulting buffer. -/
def RegisterWorkConn (poolCount : Nat) (buf : List Nat) (conn : Nat) :
    Option String × List Nat :=
  if buf.length < workConnChCap poolCount then (none, buf ++ [conn])
  else (some poolFullErr, buf)

/-! ### Server-side Control: proxy registration -/

/-- The part of a server proxy object RegisterProxy and CloseProxy read:
its name (GetName) and its used-ports count (GetUsedPortsNum). -/
structure Pxy where
  name : String
  usedPortsNum : Int
deriving DecidableEq

/-- The server configuration fields this model reads. -/
structure ServerCfg where
  maxPortsPerClient : Int

/-- The per-Control state RegisterProxy and CloseProxy mutate: the proxies
map and the used-ports counter. -/
@[ext] structure CtlState where
  proxies : String → Option Pxy
  portsUsedNum : Int

/-- Control.RegisterProxy. External outcomes are inputs: confOk is the
NewProxyConfFromMsg parse, factoryOk the proxy.NewProxy construction, pxy the
constructed proxy, runResult the remoteAddr pxy.Run yields (none on failure),
mgrAddOk the pxyManager.Add registration. When MaxPortsPerClient is positive
the used-ports count is checked and reserved before Run, and a deferred
handler releases the reservation when a later step fails. -/
def RegisterProxy (cfg : ServerCfg) (st : CtlState) (confOk factoryOk : Bool)
    (pxy : Pxy) (runResult : Option String) (mgrAddOk : Bool) :
    Except String String × CtlState :=
  if confOk = false then (Except.error "load configure error", st)
  else if factoryOk = false then (Except.error "create proxy error", st)
  else if cfg.maxPortsPerClient > 0 ∧ st.portsUsedNum + pxy.usedPortsNum > cfg.maxPortsPerClient then
    (Except.error "exceed the max_ports_per_client", st)
  else
    -- reservation, made only under an active cap
    let rst : CtlState :=
      if cfg.maxPortsPerClient > 0 then
        { st with portsUsedNum := st.portsUsedNum + pxy.usedPortsNum }
      else st
    -- state after the deferred release fires on a later failure
    let fst : CtlState :=
      if cfg.maxPortsPerClient > 0 then
        { rst with portsUsedNum := rst.portsUsedNum - pxy.usedPortsNum }
      else rst
    match runResult with
    | none => (Except.error "proxy run error", fst)
    | some remoteAddr =>
      if mgrAddOk = false then (Except.error "proxy name already in use", fst)
      else
        (Except.ok remoteAddr,
         { rst with proxies := fun n => if n = pxy.name then some pxy else rst.proxies n })

/-- Control.CloseProxy for a proxy name: a missing entry is ignored;
otherwise the used-ports counter is decremented when the cap is active, and
the entry is removed (the Close call and manager deregistration have no
effect on this state). -/
def CloseProxy (cfg : ServerCfg) (st : CtlState) (name : String) : CtlState :=
  match st.proxies name with
  | none => st
  | some pxy =>
    { proxies := fun n => if n = name then none else st.proxies n,
      portsUsedNum :=
        if cfg.maxPortsPerClient > 0 then st.portsUsedNum - pxy.usedPortsNum
        else st.portsUsedNum }

/-! ### ControlManager

Controls are opaque and compared by pointer identity, modelled by a Nat
identifier. The map ctlsByRunId is a function to Option. -/

/-- ControlManager.Add: look up runId; when an entry exists invoke its
Replaced method with the new Control; store the new Control; return the
displaced Control (none models the nil zero value). The third component
records the Controls on which Replaced was invoked during the call. -/
def ControlManagerAdd (m : String → Option Nat) (runId : String) (ctl : Nat) :
    Option Nat × (String → Option Nat) × List Nat :=
  match m runId with
  | some old => (some old, fun r => if r = runId then some ctl else m r, [old])
  | none => (none, fun r => if r = runId then some ctl else m r, [])

/-- ControlManager.Del: delete the entry for runId only when the stored
Control is pointer-identical to the argument. -/
def ControlManagerDel (m : String → Option Nat) (runId : String) (ctl : Nat) :
    String → Option Nat :=
  match m runId with
  | some c => if c = ctl then (fun r => if r = runId then none else m r) else m
  | none => m

/-! ### Client-side supervisor: keepControllerWorking

Time is in whole seconds. One outer iteration models: the wait on
ClosedDoneCh returning at deathTime with the exit flag clear, the outer
reconnect delay, the counter bump, the sliding-window reset check, and then
the inner login loop running failCount failed logins followed by one
successful login. The emitted list holds the absolute times of the login
attempts, in order. -/

/-- Supervisor state of Service.keepControllerWorking, plus the current
time in seconds. -/
structure ReconnState where
  delayTime : Nat
  reconnectDelay : Nat
  reconnectCounts : Nat
  cutoffTime : Nat
  now : Nat
deriving DecidableEq, Repr

/-- The state at entry of keepControllerWorking at time t0: delayTime one
second, cutoff one minute ahead, reconnectDelay one second, counts one. -/
def reconnInit (t0 : Nat) : ReconnState :=
  { delayTime := 1, reconnectDelay := 1, reconnectCounts := 1,
    cutoffTime := t0 + 60, now := t0 }

/-- The inner login loop: n failed attempts, then one success. Each failure
sleeps delayTime, then doubles it, capping at maxDelayTime = 20 seconds; the
success resets delayTime to one second. Returns attempt times and the final
state. -/
def innerLoop (st : ReconnState) : Nat → List Nat × ReconnState
  | 0 => ([st.now], { st with delayTime := 1 })
  | n + 1 =>
    let d2 := st.delayTime * 2
    let st' : ReconnState :=
      { st with now := st.now + st.delayTime,
                delayTime := if d2 > 20 then 20 else d2 }
    let r := innerLoop st' n
    (st.now :: r.1, r.2)

/-- One outer iteration of keepControllerWorking: ClosedDoneCh fires at
deathTime; the first three iterations sleep zero seconds, later ones sleep
reconnectDelay and double it (uncapped); the counter is bumped; when the
current time has passed cutoffTime the window is reset (cutoff one minute
ahead, reconnectDelay one second, counts one); then the inner loop runs with
failCount failed logins before a success. -/
def outerIter (st : ReconnState) (deathTime failCount : Nat) : List Nat × ReconnState :=
  let st0 : ReconnState := { st with now := deathTime }
  let st1 : ReconnState :=
    if st0.reconnectCounts > 3 then
      { st0 with now := st0.now + st0.reconnectDelay,
                 reconnectDelay := st0.reconnectDelay * 2 }
    else st0
  let st2 : ReconnState := { st1 with reconnectCounts := st1.reconnectCounts + 1 }
  let st3 : ReconnState :=
    if st2.cutoffTime < st2.now then
      { st2 with cutoffTime := st2.now + 60, reconnectDelay := 1, reconnectCounts := 1 }
    else st2
  innerLoop st3 failCount

/-- The inner-loop delay before the attempt following attempt k (zero
based), when the loop is entered with delayTime one second: one second
doubling per failure, capped at 20 seconds. -/
def innerDelay (k : Nat) : Nat := min (2 ^ k) 20

/-- Sum of the first k inner-loop delays starting from delayTime d,
following the doubling-with-cap rule of the source. -/
def delaySum (d : Nat) : Nat → Nat
  | 0 => 0
  | k + 1 => d + delaySum (if d * 2 > 20 then 20 else d * 2) k


/-! ### Theorems -/

/-- Claim C1: GetWorkConn first attempts a non-blocking receive from the
work-connection pool; on a hit it enqueues one ReqWorkConn and returns the
connection; when the pool is already closed it returns ErrCtlClosed; on a
miss it enqueues one ReqWorkConn and waits on the pool (the timeout event
models expiry of the UserConnTimeout-second timer), returning the timeout
error on expiry, ErrCtlClosed when the pool closes, and on a receive
enqueuing one replenishing ReqWorkConn and returning the connection. -/
theorem GetWorkConn_cases (c : Nat) (rest : List Nat) (cl : Bool) (ev : WaitEvent) :
    (GetWorkConn ⟨c :: rest, cl⟩ false ev = (GWCResult.conn c, 1)) ∧
    (GetWorkConn ⟨[], true⟩ false ev = (GWCResult.ctlClosed, 0)) ∧
    (GetWorkConn ⟨[], false⟩ false (WaitEvent.recv c) = (GWCResult.conn c, 2)) ∧
    (GetWorkConn ⟨[], false⟩ false WaitEvent.chClosed = (GWCResult.ctlClosed, 1)) ∧
    (GetWorkConn ⟨[], false⟩ false WaitEvent.timeout = (GWCResult.timeoutErr, 1)) :=
  ⟨rfl, rfl, rfl, rfl, rfl⟩

/-- Claim C2: RegisterWorkConn never blocks; when the pool already holds
poolCount + 10 connections it returns the pool-full error and leaves the
pool unchanged, otherwise it enqueues the connection and returns nil. -/
theorem RegisterWorkConn_spec (poolCount : Nat) (buf : List Nat) (conn : Nat) :
    (buf.length = workConnChCap poolCount →
      RegisterWorkConn poolCount buf conn = (some poolFullErr, buf)) ∧
    (buf.length < workConnChCap poolCount →
      RegisterWorkConn poolCount buf conn = (none, buf ++ [conn])) := by
  constructor
  · intro he
    simp [RegisterWorkConn, he]
  · intro hl
    simp [RegisterWorkConn, hl]

/-- Witness for RegisterWorkConn_spec: a full pool of capacity ten and an
empty pool, with poolCount zero. -/
theorem RegisterWorkConn_spec_witness :
    RegisterWorkConn 0 [1, 2, 3, 4, 5, 6, 7, 8, 9, 10] 11 =
      (some poolFullErr, [1, 2, 3, 4, 5, 6, 7, 8, 9, 10]) ∧
    RegisterWorkConn 0 [] 7 = (none, [7]) :=
  ⟨(RegisterWorkConn_spec 0 [1, 2, 3, 4, 5, 6, 7, 8, 9, 10] 11).1 (by decide),
   (RegisterWorkConn_spec 0 [] 7).2 (by decide)⟩

/-- Claim C5: Add invokes Replaced on the previously stored Control exactly
when one exists, stores the new Control under the run id, and returns the
displaced Control (none when no entry existed); Del removes the entry only
when the stored Control is pointer-identical to its argument, so a Del from
an evicted Control never removes its successor. -/
theorem ControlManager_Add_Del_spec (m : String → Option Nat) (runId : String)
    (c1 c2 : Nat) (hne : c1 ≠ c2) :
    ((ControlManagerAdd m runId c1).1 = m runId) ∧
    ((ControlManagerAdd m runId c1).2.2 = (m runId).toList) ∧
    ((ControlManagerAdd m runId c1).2.1 runId = some c1) ∧
    (∀ r, r ≠ runId → (ControlManagerAdd m runId c1).2.1 r = m r) ∧
    (∀ ctl, m runId ≠ some ctl → ControlManagerDel m runId ctl = m) ∧
    (m runId = some c1 →
      ∀ r, ControlManagerDel m runId c1 r = if r = runId then none else m r) ∧
    (ControlManagerDel
        ((ControlManagerAdd ((ControlManagerAdd m runId c1).2.1) runId c2).2.1)
        runId c1 runId = some c2) := by
  refine ⟨?_, ?_, ?_, ?_, ?_, ?_, ?_⟩
  · cases h : m runId <;> simp [ControlManagerAdd, h]
  · cases h : m runId <;> simp [ControlManagerAdd, h]
  · cases h : m runId <;> simp [ControlManagerAdd, h]
  · intro r hr
    cases h : m runId <;> simp [ControlManagerAdd, h, hr]
  · intro ctl hctl
    cases h : m runId with
    | none => simp [ControlManagerDel, h]
    | some c =>
      have hcc : c ≠ ctl := by
        intro hc
        exact hctl (by rw [h, hc])
      simp [ControlManagerDel, h, hcc]
  · intro hm r
    simp [ControlManagerDel, hm]
  · cases h : m runId <;>
      simp [ControlManagerAdd, ControlManagerDel, h, hne, Ne.symm hne]

/-- Witness for ControlManager_Add_Del_spec: on an empty manager, Add 1 then
Add 2 under the same run id, then a late Del by Control 1, leaves Control 2
registered. -/
theorem ControlManager_Add_Del_witness :
    ControlManagerDel
      ((ControlManagerAdd ((ControlManagerAdd (fun _ => none) "r" 1).2.1) "r" 2).2.1)
      "r" 1 "r" = some 2 :=
  (ControlManager_Add_Del_spec (fun _ => none) "r" 1 2 (by decide)).2.2.2.2.2.2

/-- Claim C10: when every enumerated interface has an empty hardware address
the collected MAC list is empty and the unique-id routine panics, because
sortDecimalArray unconditionally indexes element zero of its argument; the
panic is modelled by none. -/
theorem getHashResult_empty_panics (addrs : List String) (h : ∀ a ∈ addrs, a = "") :
    getHashResult addrs = none := by
  have hf : addrs.filter (fun a => a ≠ "") = [] := by
    rw [List.filter_eq_nil_iff]
    intro a ha
    simp [h a ha]
  simp only [getHashResult]
  rw [hf]
  rfl

/-- Witness for getHashResult_empty_panics: two interfaces, both with empty
hardware addresses. -/
theorem getHashResult_empty_panics_witness : getHashResult ["", ""] = none :=
  getHashResult_empty_panics ["", ""] (by decide)

/-- Claim C3: when RegisterProxy accepts a NewProxy under a fresh name,
running CloseProxy on that name afterwards restores the proxies map and
portsUsedNum to their values before the RegisterProxy call. -/
theorem RegisterProxy_CloseProxy_roundtrip (cfg : ServerCfg) (st : CtlState)
    (confOk factoryOk : Bool) (pxy : Pxy) (runResult : Option String) (mgrAddOk : Bool)
    (remoteAddr : String) (st' : CtlState)
    (hfresh : st.proxies pxy.name = none)
    (hok : RegisterProxy cfg st confOk factoryOk pxy runResult mgrAddOk =
      (Except.ok remoteAddr, st')) :
    CloseProxy cfg st' pxy.name = st := by
  simp only [RegisterProxy] at hok
  split at hok
  · exact absurd (congrArg Prod.fst hok) (by simp)
  split at hok
  · exact absurd (congrArg Prod.fst hok) (by simp)
  split at hok
  · exact absurd (congrArg Prod.fst hok) (by simp)
  split at hok
  · exact absurd (congrArg Prod.fst hok) (by simp)
  split at hok
  · exact absurd (congrArg Prod.fst hok) (by simp)
  have hst' := congrArg Prod.snd hok
  simp only at hst'
  subst hst'
  by_cases hcap : cfg.maxPortsPerClient > 0
  all_goals
    simp [CloseProxy]
    ext n
    · by_cases hn : n = pxy.name <;> simp [hn, hfresh, hcap]
    · simp [hcap]

/-- Witness for RegisterProxy_CloseProxy_roundtrip: a tcp proxy named web
using one port, registered on an empty Control with a cap of ten ports, then
closed. -/
theorem RegisterProxy_CloseProxy_roundtrip_witness :
    CloseProxy ⟨10⟩
      (RegisterProxy ⟨10⟩ ⟨fun _ => none, 0⟩ true true ⟨"web", 1⟩ (some ":6000") true).2
      "web" = ⟨fun _ => none, 0⟩ :=
  RegisterProxy_CloseProxy_roundtrip ⟨10⟩ ⟨fun _ => none, 0⟩ true true ⟨"web", 1⟩
    (some ":6000") true ":6000" _ rfl rfl

/-- Claim C4: with MaxPortsPerClient positive, RegisterProxy rejects a proxy
whose used-port count would push portsUsedNum past the cap, leaving the
state unchanged; when the check passes the ports are reserved, a failure of
a later step (proxy Run or manager registration) releases the reservation,
and on success the reservation stands. -/
theorem RegisterProxy_ports_reservation (cfg : ServerCfg) (st : CtlState) (pxy : Pxy)
    (runResult : Option String) (mgrAddOk : Bool)
    (hcap : cfg.maxPortsPerClient > 0) :
    (st.portsUsedNum + pxy.usedPortsNum > cfg.maxPortsPerClient →
      RegisterProxy cfg st true true pxy runResult mgrAddOk =
        (Except.error "exceed the max_ports_per_client", st)) ∧
    (st.portsUsedNum + pxy.usedPortsNum ≤ cfg.maxPortsPerClient → runResult = none →
      (RegisterProxy cfg st true true pxy runResult mgrAddOk).2.portsUsedNum =
        st.portsUsedNum) ∧
    (st.portsUsedNum + pxy.usedPortsNum ≤ cfg.maxPortsPerClient → mgrAddOk = false →
      (RegisterProxy cfg st true true pxy runResult mgrAddOk).2.portsUsedNum =
        st.portsUsedNum) ∧
    (st.portsUsedNum + pxy.usedPortsNum ≤ cfg.maxPortsPerClient →
      runResult ≠ none → mgrAddOk = true →
      (RegisterProxy cfg st true true pxy runResult mgrAddOk).2.portsUsedNum =
        st.portsUsedNum + pxy.usedPortsNum) := by
  refine ⟨?_, ?_, ?_, ?_⟩
  · intro hgt
    simp [RegisterProxy, hcap, hgt]
  · intro hle hrun
    subst hrun
    simp [RegisterProxy, hcap, not_lt.mpr hle]
  · intro hle hmgr
    subst hmgr
    cases runResult with
    | none => simp [RegisterProxy, hcap, not_lt.mpr hle]
    | some ra => simp [RegisterProxy, hcap, not_lt.mpr hle]
  · intro hle hrun hmgr
    subst hmgr
    cases runResult with
    | none => exact absurd rfl hrun
    | some ra => simp [RegisterProxy, hcap, not_lt.mpr hle]

/-- Witness for RegisterProxy_ports_reservation: cap ten, an empty Control,
a proxy using three ports, a successful Run and manager registration. -/
theorem RegisterProxy_ports_reservation_witness :
    (RegisterProxy ⟨10⟩ ⟨fun _ => none, 0⟩ true true ⟨"p", 3⟩ (some ":1") true).2.portsUsedNum
      = 0 + 3 :=
  (RegisterProxy_ports_reservation ⟨10⟩ ⟨fun _ => none, 0⟩ ⟨"p", 3⟩ (some ":1") true
    (by decide)).2.2.2 (by decide) (by decide) rfl

/-- Counterexample to claim C6: from the fresh supervisor state, one session
death at time zero followed by twelve failed logins gives attempts at times
0, 1, 3, 7, 15, 31, 51, 71, 91, 111, 131, 151, 171 seconds. The first three
attempts are not delay-free (they fall at 0, 1 and 3 seconds, not all at
zero), and after the first minute of continued failure the 20-second gaps
continue (71 then 91) with no reset to a one-second delay: the three
immediate retries and the one-minute reset belong to the outer per-session
loop, which continuous login failure never re-enters. -/
theorem keepControllerWorking_claim_cex :
    (outerIter (reconnInit 0) 0 12).1 =
      [0, 1, 3, 7, 15, 31, 51, 71, 91, 111, 131, 151, 171] ∧
    (outerIter (reconnInit 0) 0 12).1.take 3 ≠ [0, 0, 0] ∧
    (outerIter (reconnInit 0) 0 12).1.getD 8 0 - (outerIter (reconnInit 0) 0 12).1.getD 7 0
      = 20 := by
  refine ⟨by decide, by decide, by decide⟩

/-- Attempt times of the inner login loop: the k-th attempt happens
delaySum st.delayTime k seconds after entry, and the successful login resets
delayTime to one second. -/
theorem innerLoop_times (n : Nat) : ∀ st : ReconnState,
    (innerLoop st n).1 =
      (List.range (n + 1)).map (fun k => st.now + delaySum st.delayTime k) ∧
    (innerLoop st n).2.delayTime = 1 := by
  induction n with
  | zero =>
    intro st
    constructor
    · have h0 : List.range 1 = [0] := rfl
      rw [h0]
      simp [innerLoop, delaySum]
    · rfl
  | succ n ih =>
    intro st
    have h1 := ih ⟨(if st.delayTime * 2 > 20 then 20 else st.delayTime * 2), st.reconnectDelay, st.reconnectCounts, st.cutoffTime, st.now + st.delayTime⟩
    constructor
    · simp only [innerLoop]
      rw [List.range_succ_eq_map (n + 1), List.map_cons, List.map_map, h1.1]
      have he : ∀ k ∈ List.range (n + 1),
          (fun k => (⟨(if st.delayTime * 2 > 20 then 20 else st.delayTime * 2), st.reconnectDelay, st.reconnectCounts, st.cutoffTime, st.now + st.delayTime⟩ : ReconnState).now + delaySum (⟨(if st.delayTime * 2 > 20 then 20 else st.delayTime * 2), st.reconnectDelay, st.reconnectCounts, st.cutoffTime, st.now + st.delayTime⟩ : ReconnState).delayTime k) k
            = ((fun k => st.now + delaySum st.delayTime k) ∘ Nat.succ) k := by
        intro k _
        simp only [Function.comp_apply, delaySum]
        omega
      rw [List.map_congr_left he]
      simp [delaySum]
    · simp only [innerLoop]
      exact h1.2

/-- Doubling with a 20-second cap, started from min (2 power j) 20. -/
theorem cappedDouble_min (j : Nat) :
    (if (min (2 ^ j) 20) * 2 > 20 then 20 else (min (2 ^ j) 20) * 2)
      = min (2 ^ (j + 1)) 20 := by
  by_cases h : 2 ^ j ≤ 20
  · rw [min_eq_left h]
    by_cases h2 : 2 ^ j * 2 > 20
    · rw [if_pos h2, eq_comm, min_eq_right]
      rw [pow_succ]
      omega
    · rw [if_neg h2, eq_comm, min_eq_left]
      · rw [pow_succ]
      · rw [pow_succ]
        omega
  · rw [min_eq_right (by omega), if_pos (by omega), eq_comm, min_eq_right]
    have := Nat.pow_le_pow_right (by omega : 1 ≤ 2) (Nat.le_succ j)
    omega

/-- The delay sum from a capped power of two equals the running sum of the
capped powers of two. -/
theorem delaySum_min (k : Nat) : ∀ j,
    delaySum (min (2 ^ j) 20) k
      = ((List.range k).map (fun i => min (2 ^ (j + i)) 20)).sum := by
  induction k with
  | zero => intro j; rfl
  | succ k ih =>
    intro j
    simp only [delaySum]
    rw [cappedDouble_min, ih (j + 1),
      List.range_succ_eq_map, List.map_cons, List.sum_cons, List.map_map]
    have he : ∀ i ∈ List.range k,
        ((fun i => min (2 ^ (j + i)) 20) ∘ Nat.succ) i
          = (fun i => min (2 ^ (j + 1 + i)) 20) i := by
      intro i _
      simp only [Function.comp_apply]
      have : j + Nat.succ i = j + 1 + i := by omega
      rw [this]
    rw [List.map_congr_left he]
    simp

/-- The inner delays starting from one second are min (2 power k) 20. -/
theorem delaySum_one (k : Nat) :
    delaySum 1 k = ((List.range k).map (fun i => min (2 ^ i) 20)).sum := by
  have h := delaySum_min k 0
  simpa using h

/-- Amended claim C6: during continuous login failure after a session death
(entered with delayTime one second and at most three prior session
reconnects, so the outer loop adds no delay), only the first attempt is
immediate; attempt k then occurs after the sum of the first k inner delays,
where the i-th delay is min (2 power i) 20 seconds — one second doubling
per failure, capped at 20 seconds, with no reset during the failure period
(the three immediate retries and the one-minute window reset belong to the
outer per-session-death loop, whose reconnectDelay doubles without cap);
the eventual successful login resets delayTime to one second. -/
theorem keepControllerWorking_schedule (st : ReconnState) (death n : Nat)
    (hd : st.delayTime = 1) (hc : st.reconnectCounts ≤ 3) :
    (outerIter st death n).1 =
      (List.range (n + 1)).map
        (fun k => death + ((List.range k).map (fun i => min (2 ^ i) 20)).sum) ∧
    (outerIter st death n).2.delayTime = 1 := by
  have hgt : ¬ ({ st with now := death } : ReconnState).reconnectCounts > 3 := by
    simpa using Nat.not_lt.mpr hc
  constructor
  · simp only [outerIter, if_neg hgt]
    split
    · rw [(innerLoop_times n _).1]
      simp [hd, delaySum_one]
    · rw [(innerLoop_times n _).1]
      simp [hd, delaySum_one]
  · simp only [outerIter, if_neg hgt]
    split
    · exact (innerLoop_times n _).2
    · exact (innerLoop_times n _).2

/-- Witness for keepControllerWorking_schedule: fresh state, death at time
zero, two failed logins: attempts at 0, 1 and 3 seconds. -/
theorem keepControllerWorking_schedule_witness :
    (outerIter (reconnInit 0) 0 2).1 =
      (List.range 3).map
        (fun k => 0 + ((List.range k).map (fun i => min (2 ^ i) 20)).sum) ∧
    (outerIter (reconnInit 0) 0 2).2.delayTime = 1 :=
  keepControllerWorking_schedule (reconnInit 0) 0 2 rfl (by decide)

set_option maxRecDepth 40000

/-- Counterexample to claim C7: on the single address 00:00:00:00:00:01 the
source parses only 0000000001 (the substring of the stripped address after
its first two characters) and hashes the decimal string of ten times that
integer (the exponent-one decimal), giving a different string from the
claim-worded computation, which parses the full stripped address and hashes
the decimal string of the integer itself. -/
theorem getHashResult_claim_cex :
    getHashResult ["00:00:00:00:00:01"] = some "5a0852e59758cd7a87e5" ∧
    claimC7UniqueId ["00:00:00:00:00:01"] = some "4d18c28d46e6395428ab" ∧
    getHashResult ["00:00:00:00:00:01"] ≠ claimC7UniqueId ["00:00:00:00:00:01"] :=
  ⟨by decide, by decide, by decide⟩

/-- The foldl of the source minimum loop computes the list minimum. -/
theorem foldl_pickSmaller_eq_min (l : List Nat) : ∀ a : Nat,
    l.foldl (fun mn item => if item < mn then item else mn) a = l.foldl min a := by
  induction l with
  | nil => intro a; rfl
  | cons x rest ih =>
    intro a
    simp only [List.foldl_cons]
    have hx : (if x < a then x else a) = min a x := by
      rcases Nat.lt_or_ge x a with h | h
      · rw [if_pos h, Nat.min_eq_right (Nat.le_of_lt h)]
      · rw [if_neg (Nat.not_lt.mpr h), Nat.min_eq_left h]
    rw [hx, ih]

/-- sortDecimalArray computes the minimum of a non-empty list (none on the
empty list, where the source panics). -/
theorem sortDecimalArray_eq_min? (l : List Nat) : sortDecimalArray l = l.min? := by
  cases l with
  | nil => rfl
  | cons m rest =>
    simp only [sortDecimalArray, List.min?, List.foldl_cons]
    rw [foldl_pickSmaller_eq_min]
    simp

/-- Amended claim C7: for every list of hardware addresses, the unique-id
routine skips empty addresses, strips the separator characters from each,
parses the substring after the first two characters of each stripped address
as a hexadecimal big integer, scales each by ten (the exponent-one decimal),
selects the numerically smallest, computes the SHA-1 of its base-ten string
representation, and returns the last 20 hexadecimal characters of the
digest. -/
theorem getHashResult_amended (addrs : List String) :
    getHashResult addrs = amendedC7UniqueId addrs := by
  show (match mapOption (fun a => (hexToBigInt (stripColons a)).map decimalNewFromBigInt1)
      (addrs.filter (fun a => a ≠ "")) with
    | none => none
    | some decs =>
      match sortDecimalArray decs with
      | none => none
      | some m => some (⟨(sha1Hex (decimalString m)).data.drop 20⟩ : String)) = _
  cases h : mapOption (fun a => (hexToBigInt (stripColons a)).map decimalNewFromBigInt1)
      (addrs.filter (fun a => a ≠ "")) with
  | none =>
    show none = amendedC7UniqueId addrs
    simp only [amendedC7UniqueId]
    rw [show (fun a => (hexVal? ((stripColons a).data.drop 2)).map (fun n => 10 * n))
        = (fun a => (hexToBigInt (stripColons a)).map decimalNewFromBigInt1) from rfl, h]
  | some decs =>
    show (match sortDecimalArray decs with
      | none => none
      | some m => some (⟨(sha1Hex (decimalString m)).data.drop 20⟩ : String))
        = amendedC7UniqueId addrs
    simp only [amendedC7UniqueId]
    rw [show (fun a => (hexVal? ((stripColons a).data.drop 2)).map (fun n => 10 * n))
        = (fun a => (hexToBigInt (stripColons a)).map decimalNewFromBigInt1) from rfl, h,
      sortDecimalArray_eq_min?]
    show (match decs.min? with
      | none => none
      | some m => some (⟨(sha1Hex (decimalString m)).data.drop 20⟩ : String)) =
      (match decs.min? with
      | none => none
      | some m => some (⟨(sha1Hex (Nat.repr m)).data.drop 20⟩ : String))
    cases decs.min? <;> rfl

/-- The accumulator loop of the base-16 parse succeeds on all-hexadecimal
input. -/
theorem hexValCore_isSome (l : List Char) : ∀ acc : Nat,
    (∀ c ∈ l, (hexDigitVal? c).isSome) → ∃ n, hexVal?.hexValCore l acc = some n := by
  induction l with
  | nil => exact fun acc _ => ⟨acc, rfl⟩
  | cons c rest ih =>
    intro acc h
    obtain ⟨d, hd⟩ := Option.isSome_iff_exists.mp (h c (by simp))
    obtain ⟨n, hn⟩ := ih (16 * acc + d) (fun x hx => h x (by simp [hx]))
    exact ⟨n, by simp [hexVal?.hexValCore, hd, hn]⟩

/-- The base-16 parse succeeds on non-empty all-hexadecimal input. -/
theorem hexVal?_isSome (l : List Char) (hne : l ≠ [])
    (h : ∀ c ∈ l, (hexDigitVal? c).isSome) : ∃ n, hexVal? l = some n := by
  cases l with
  | nil => exact absurd rfl hne
  | cons c rest =>
    obtain ⟨n, hn⟩ := hexValCore_isSome (c :: rest) 0 h
    exact ⟨n, hn⟩

/-- A well-formed hardware address parses into an exponent-one decimal. -/
theorem validMac_parses (a : String) (h : validMac a = true) :
    ∃ b, (hexToBigInt (stripColons a)).map decimalNewFromBigInt1 = some b := by
  unfold validMac at h
  rw [Bool.and_eq_true, decide_eq_true_eq, List.all_eq_true] at h
  obtain ⟨hlen, hall⟩ := h
  have hne : (stripColons a).data.drop 2 ≠ [] := by
    intro hd
    have hl : ((stripColons a).data.drop 2).length = (stripColons a).data.length - 2 := by
      rw [List.length_drop]
    rw [hd] at hl
    simp only [List.length_nil] at hl
    omega
  have hmem : ∀ c ∈ (stripColons a).data.drop 2, (hexDigitVal? c).isSome := by
    intro c hc
    simpa using hall c (List.drop_subset 2 _ hc)
  obtain ⟨n, hn⟩ := hexVal?_isSome _ hne hmem
  exact ⟨10 * n, by simp [hexToBigInt, hn, decimalNewFromBigInt1]⟩

/-- mapOption succeeds, with preserved length, when every element maps to
some value. -/
theorem mapOption_isSome {α β : Type} (f : α → Option β) (l : List α)
    (h : ∀ a ∈ l, ∃ b, f a = some b) :
    ∃ bs, mapOption f l = some bs ∧ bs.length = l.length := by
  induction l with
  | nil => exact ⟨[], rfl, rfl⟩
  | cons a rest ih =>
    obtain ⟨b, hb⟩ := h a (by simp)
    obtain ⟨bs, hbs, hlen⟩ := ih (fun x hx => h x (by simp [hx]))
    exact ⟨b :: bs, by simp [mapOption, hb, hbs], by simp [hlen]⟩

/-- The characters of the rendered digest, explicitly. -/
theorem sha1Hex_data (s : String) :
    (sha1Hex s).data = ((sha1Bytes (s.data.map Char.toNat)).map byteHexChars).flatten := rfl

/-- The digest has twenty bytes regardless of the message. -/
theorem sha1Bytes_length (msg : List Nat) : (sha1Bytes msg).length = 20 := by
  simp [sha1Bytes, wordBytes]

/-- Every nibble character produced by hexChar is a lowercase hexadecimal
digit. -/
theorem isLowerHexChar_hexChar (n : Nat) : isLowerHexChar (hexChar n) = true := by
  have h : n % 16 < 16 := Nat.mod_lt _ (by norm_num)
  have hall : ∀ k, k < 16 →
      isLowerHexChar (if k < 10 then Char.ofNat (48 + k) else Char.ofNat (87 + k)) = true := by
    decide
  simpa [hexChar] using hall (n % 16) h

/-- Byte-wise hex rendering yields only lowercase hexadecimal characters. -/
theorem flatten_byteHexChars_all (bs : List Nat) :
    ((bs.map byteHexChars).flatten).all isLowerHexChar = true := by
  induction bs with
  | nil => rfl
  | cons b rest ih => simp [byteHexChars, isLowerHexChar_hexChar, ih]

/-- Byte-wise hex rendering doubles the length. -/
theorem flatten_byteHexChars_length (bs : List Nat) :
    ((bs.map byteHexChars).flatten).length = 2 * bs.length := by
  induction bs with
  | nil => rfl
  | cons b rest ih =>
    simp [byteHexChars, ih]
    omega

/-- The rendered digest has forty characters. -/
theorem sha1Hex_length (s : String) : (sha1Hex s).data.length = 40 := by
  rw [sha1Hex_data, flatten_byteHexChars_length, sha1Bytes_length]

/-- Claim C8: on an interface set with at least one non-empty well-formed
hardware address, the unique-id routine returns a string of exactly 20
lowercase hexadecimal characters, and (being a pure function of the
interface set) two invocations on the same set return identical output. -/
theorem getHashResult_contract (addrs : List String)
    (hval : ∀ a ∈ addrs, a ≠ "" → validMac a = true)
    (hne : ∃ a ∈ addrs, a ≠ "") :
    ∃ s, getHashResult addrs = some s ∧ s.data.length = 20 ∧
      s.data.all isLowerHexChar = true ∧
      (∀ addrs2, addrs2 = addrs → getHashResult addrs2 = getHashResult addrs) := by
  have hmacne : addrs.filter (fun a => a ≠ "") ≠ [] := by
    obtain ⟨a, ha, hane⟩ := hne
    intro h0
    have hmem : a ∈ addrs.filter (fun a => a ≠ "") :=
      List.mem_filter.mpr ⟨ha, by simpa using hane⟩
    rw [h0] at hmem
    exact absurd hmem (List.not_mem_nil a)
  have hparse : ∀ a ∈ addrs.filter (fun a => a ≠ ""),
      ∃ b, (hexToBigInt (stripColons a)).map decimalNewFromBigInt1 = some b := by
    intro a ha
    have hmem := List.mem_filter.mp ha
    exact validMac_parses a (hval a hmem.1 (by simpa using hmem.2))
  obtain ⟨decs, hdecs, hlen⟩ := mapOption_isSome _ _ hparse
  have hdecne : decs ≠ [] := by
    intro h0
    rw [h0] at hlen
    exact hmacne (List.length_eq_zero.mp hlen.symm)
  have hsort : ∃ M, sortDecimalArray decs = some M := by
    cases decs with
    | nil => exact absurd rfl hdecne
    | cons x xs => exact ⟨_, rfl⟩
  obtain ⟨M, hM⟩ := hsort
  refine ⟨⟨(sha1Hex (decimalString M)).data.drop 20⟩, ?_, ?_, ?_, fun _ he => by rw [he]⟩
  · simp only [getHashResult]
    rw [hdecs]
    simp only [hM]
  · simp only [List.length_drop, sha1Hex_length]
  · rw [List.all_eq_true]
    intro c hc
    have hc2 : c ∈ ((sha1Hex (decimalString M)).data).drop 20 := hc
    rw [sha1Hex_data] at hc2
    have hall := flatten_byteHexChars_all (sha1Bytes ((decimalString M).data.map Char.toNat))
    rw [List.all_eq_true] at hall
    exact hall c (List.drop_subset 20 _ hc2)

/-- Witness for getHashResult_contract: a single standard MAC address. -/
theorem getHashResult_contract_witness :
    ∃ s, getHashResult ["00:00:00:00:00:01"] = some s ∧ s.data.length = 20 ∧
      s.data.all isLowerHexChar = true ∧
      (∀ addrs2, addrs2 = ["00:00:00:00:00:01"] →
        getHashResult addrs2 = getHashResult ["00:00:00:00:00:01"]) :=
  getHashResult_contract ["00:00:00:00:00:01"] (by decide) (by decide)

/-- A character with a hexadecimal digit value is not a colon. -/
theorem hexDigit_ne_colon (c : Char) (h : (hexDigitVal? c).isSome) : c ≠ ':' := by
  intro he
  subst he
  exact absurd h (by decide)

/-- mapOption is determined by the values of f on the two lists: pointwise
equal f-values on related elements give equal results. -/
theorem mapOption_congr_rel {α β : Type} {f : α → Option β} {l1 l2 : List α}
    (h : List.Forall₂ (fun a b => f a = f b) l1 l2) :
    mapOption f l1 = mapOption f l2 := by
  induction h with
  | nil => rfl
  | cons hab _ ih => simp only [mapOption, hab, ih]

/-- Claim C9: the unique-id is insensitive to the first octet of every MAC
address: two interface sets whose addresses agree except in the first two
hexadecimal digits of each address hash identically, because hexToBigInt
parses only the substring of the stripped address after its first two
characters. -/
theorem getHashResult_firstOctet_insensitive (l1 l2 : List String)
    (h : List.Forall₂ (fun a1 a2 => ∃ c1 c2 d1 d2 r,
        (hexDigitVal? c1).isSome ∧ (hexDigitVal? c2).isSome ∧
        (hexDigitVal? d1).isSome ∧ (hexDigitVal? d2).isSome ∧
        a1.data = c1 :: c2 :: r ∧ a2.data = d1 :: d2 :: r) l1 l2) :
    getHashResult l1 = getHashResult l2 := by
  have key : mapOption (fun a => (hexToBigInt (stripColons a)).map decimalNewFromBigInt1)
        (l1.filter (fun a => a ≠ ""))
      = mapOption (fun a => (hexToBigInt (stripColons a)).map decimalNewFromBigInt1)
        (l2.filter (fun a => a ≠ "")) := by
    induction h with
    | nil => rfl
    | @cons x y xs ys hab htail ih =>
      obtain ⟨c1, c2, d1, d2, r, h1, h2, h3, h4, hx, hy⟩ := hab
      have hxne : x ≠ "" := by
        intro h0
        rw [h0] at hx
        simp at hx
      have hyne : y ≠ "" := by
        intro h0
        rw [h0] at hy
        simp at hy
      have hfeq : (hexToBigInt (stripColons x)).map decimalNewFromBigInt1
          = (hexToBigInt (stripColons y)).map decimalNewFromBigInt1 := by
        have hsx : (stripColons x).data = c1 :: c2 :: r.filter (fun c => c ≠ ':') := by
          show x.data.filter (fun c => decide (c ≠ ':')) = _
          rw [hx, List.filter_cons, List.filter_cons]
          simp [hexDigit_ne_colon c1 h1, hexDigit_ne_colon c2 h2]
        have hsy : (stripColons y).data = d1 :: d2 :: r.filter (fun c => c ≠ ':') := by
          show y.data.filter (fun c => decide (c ≠ ':')) = _
          rw [hy, List.filter_cons, List.filter_cons]
          simp [hexDigit_ne_colon d1 h3, hexDigit_ne_colon d2 h4]
        show (hexVal? ((stripColons x).data.drop 2)).map decimalNewFromBigInt1
          = (hexVal? ((stripColons y).data.drop 2)).map decimalNewFromBigInt1
        rw [hsx, hsy]
        rfl
      rw [List.filter_cons, List.filter_cons, if_pos (by simpa using hxne),
        if_pos (by simpa using hyne)]
      simp only [mapOption, hfeq, ih]
  simp only [getHashResult]
  rw [key]

/-- Witness for getHashResult_firstOctet_insensitive: changing the first
octet 00 to ff leaves the unique-id unchanged. -/
theorem getHashResult_firstOctet_insensitive_witness :
    getHashResult ["00:00:00:00:00:01"] = getHashResult ["ff:00:00:00:00:01"] :=
  getHashResult_firstOctet_insensitive ["00:00:00:00:00:01"] ["ff:00:00:00:00:01"]
    (List.Forall₂.cons
      ⟨'0', '0', 'f', 'f', ":00:00:00:00:01".data,
        by decide, by decide, by decide, by decide, by decide, by decide⟩
      List.Forall₂.nil)
